import Mathlib

/-
  Shallow embedding of the SnapChaos socket server (src/server.js).

  Modelling conventions:
  * A socket connection id (`socket.id`) is an opaque non-empty token; we model it
    as `Sid := Nat`.
  * A JavaScript `Map` is modelled as an association list in insertion order:
    `Map.set` updates an existing key in place or appends a new entry at the end,
    `Map.delete` removes the entry, iteration follows the list.  A JavaScript
    `Set` of sids is a duplicate-free list in insertion order, with idempotent add.
  * `nanoid` room-code generation, the random prompt choice and `Date.now()` are
    nondeterministic inputs of the process; they are passed as parameters of the
    corresponding events (`create_room` carries the generated code, `start_round`
    carries the chosen prompt and the current time in milliseconds).
  * `room.hostId = nextHost || null` in the disconnect handler: `nextHost` is
    `undefined` exactly when the map is empty, and socket ids are non-empty
    strings, so the expression is modelled as `List.head?` of the remaining
    players.
  * server.js registers no listener for a `leave_room` event, so that event is a
    no-op of the server state.
-/

namespace SnapChaos

abbrev Sid := Nat

structure Player where
  name : String
  score : Int
deriving DecidableEq, Repr

structure Room where
  code : String
  hostId : Option Sid
  players : List (Sid × Player)
  mode : Option String
  round : Nat
  prompt : Option String
  deadline : Option Int
  submissions : List (Sid × String)
  votes : List (Sid × Sid)
  rejections : List (Sid × List Sid)
deriving DecidableEq, Repr

/-- The fresh room built by `ensureRoom` when the code is not yet registered. -/
def newRoom (code : String) : Room :=
  { code := code, hostId := none, players := [], mode := none, round := 0,
    prompt := none, deadline := none, submissions := [], votes := [],
    rejections := [] }

/-- `Map.get`: first (unique) entry for the key. -/
def mget {α β : Type} [DecidableEq α] (k : α) : List (α × β) → Option β
  | [] => none
  | e :: rest => if e.1 = k then some e.2 else mget k rest

/-- `Map.set`: update an existing key in place, else append at the end. -/
def mset {α β : Type} [DecidableEq α] (k : α) (v : β) : List (α × β) → List (α × β)
  | [] => [(k, v)]
  | e :: rest => if e.1 = k then (k, v) :: rest else e :: mset k v rest

/-- `Map.delete`: remove the entry for the key. -/
def mdel {α β : Type} [DecidableEq α] (k : α) : List (α × β) → List (α × β)
  | [] => []
  | e :: rest => if e.1 = k then mdel k rest else e :: mdel k rest

/-- `Set.add`: idempotent insertion at the end. -/
def sadd (x : Sid) (s : List Sid) : List Sid := if x ∈ s then s else s ++ [x]

structure PlayerView where
  sid : Sid
  name : String
  score : Int
deriving DecidableEq, Repr

structure RoomView where
  code : String
  hostId : Option Sid
  players : List PlayerView
  mode : Option String
  round : Nat
deriving DecidableEq, Repr

def serializeRoom (room : Room) : RoomView :=
  { code := room.code, hostId := room.hostId,
    players := room.players.map (fun e => { sid := e.1, name := e.2.name, score := e.2.score }),
    mode := room.mode, round := room.round }

def serializeScores (room : Room) : List PlayerView :=
  room.players.map (fun e => { sid := e.1, name := e.2.name, score := e.2.score })

/-- Outbound broadcasts (`io.to(code).emit(...)`). -/
inductive Broadcast where
  | room_update (code : String) (view : RoomView)
  | round_started (code : String) (round : Nat) (mode : Option String)
      (prompt : String) (deadline : Int)
  | submission_update (code : String) (count : Nat)
  | vote_update (code : String) (votes : Nat)
  | rejection_update (code : String) (targetSid : Sid) (count : Nat)
  | round_results (code : String) (prompt : Option String)
      (submissions : List (Sid × String)) (votes : List (Sid × Nat))
      (winners : List Sid) (scores : List PlayerView)
deriving DecidableEq, Repr

/-- Inbound events.  Nondeterministic inputs of the handlers (generated room
code, chosen prompt, current time) travel with the event. -/
inductive Event where
  | create_room (sid : Sid) (code : String) (name : Option String)
  | join_room (sid : Sid) (code : String) (name : Option String)
  | start_round (sid : Sid) (code : String) (mode : Option String)
      (durationSec : Option Int) (prompt : String) (now : Int)
  | submit_photo (sid : Sid) (code : String) (dataURL : String)
  | vote_best (sid : Sid) (code : String) (targetSid : Sid)
  | flag_lazy (sid : Sid) (code : String) (targetSid : Sid)
  | end_round (sid : Sid) (code : String)
  | leave_room (sid : Sid) (code : String)
  | disconnect (sid : Sid)
deriving DecidableEq, Repr

structure ServerState where
  rooms : List (String × Room)
deriving DecidableEq, Repr

def initState : ServerState := ⟨[]⟩

/-- `name || "Host"` / `name || "Guest"`: the empty string is falsy. -/
def defaultName (name : Option String) (fallback : String) : String :=
  match name with
  | none => fallback
  | some n => if n = "" then fallback else n

/-- `(durationSec || 30)`: `0` (and an absent field) is falsy, every other
number — including a negative one — is used as given. -/
def durationOr30 (durationSec : Option Int) : Int :=
  match durationSec with
  | none => 30
  | some d => if d = 0 then 30 else d

def stepCreateRoom (s : ServerState) (sid : Sid) (code : String)
    (name : Option String) : ServerState × List Broadcast :=
  let base := (mget code s.rooms).getD (newRoom code)
  let room := { base with
                hostId := some sid,
                players := mset sid { name := defaultName name "Host", score := 0 } base.players }
  (⟨mset code room s.rooms⟩, [Broadcast.room_update code (serializeRoom room)])

def stepJoinRoom (s : ServerState) (sid : Sid) (code : String)
    (name : Option String) : ServerState × List Broadcast :=
  let base := (mget code s.rooms).getD (newRoom code)
  let hostId' := match base.hostId with
    | none => some sid
    | some h => some h
  let room := { base with
                hostId := hostId',
                players := mset sid { name := defaultName name "Guest", score := 0 } base.players }
  (⟨mset code room s.rooms⟩, [Broadcast.room_update code (serializeRoom room)])

def stepStartRound (s : ServerState) (sid : Sid) (code : String)
    (mode : Option String) (durationSec : Option Int) (prompt : String)
    (now : Int) : ServerState × List Broadcast :=
  match mget code s.rooms with
  | none => (s, [])
  | some room =>
    if room.hostId = some sid then
      let room' := { room with
                     mode := mode, round := room.round + 1,
                     prompt := some prompt,
                     deadline := some (now + durationOr30 durationSec * 1000),
                     submissions := [], votes := [], rejections := [] }
      (⟨mset code room' s.rooms⟩,
       [Broadcast.round_started code room'.round mode prompt
          (now + durationOr30 durationSec * 1000)])
    else (s, [])

def stepSubmitPhoto (s : ServerState) (sid : Sid) (code : String)
    (dataURL : String) : ServerState × List Broadcast :=
  match mget code s.rooms with
  | none => (s, [])
  | some room =>
    let room' := { room with submissions := mset sid dataURL room.submissions }
    (⟨mset code room' s.rooms⟩,
     [Broadcast.submission_update code room'.submissions.length])

def stepVoteBest (s : ServerState) (sid : Sid) (code : String)
    (targetSid : Sid) : ServerState × List Broadcast :=
  match mget code s.rooms with
  | none => (s, [])
  | some room =>
    let room' := { room with votes := mset sid targetSid room.votes }
    (⟨mset code room' s.rooms⟩, [Broadcast.vote_update code room'.votes.length])

def stepFlagLazy (s : ServerState) (sid : Sid) (code : String)
    (targetSid : Sid) : ServerState × List Broadcast :=
  match mget code s.rooms with
  | none => (s, [])
  | some room =>
    let voters := sadd sid ((mget targetSid room.rejections).getD [])
    let room' := { room with rejections := mset targetSid voters room.rejections }
    (⟨mset code room' s.rooms⟩,
     [Broadcast.rejection_update code targetSid voters.length])

/-- `submissions.map(s => s.sid)`, viewed as the membership test set. -/
def submittedSids (room : Room) : List Sid := room.submissions.map Prod.fst

/-- Participation pass of `end_round`: submitters +1, everyone else −2. -/
def applyParticipation (sub : List Sid) (ps : List (Sid × Player)) :
    List (Sid × Player) :=
  ps.map (fun e => (e.1,
    if e.1 ∈ sub then { e.2 with score := e.2.score + 1 }
    else { e.2 with score := e.2.score - 2 }))

/-- `players.get(k)` followed by an in-place score mutation; absent keys are
left alone (the `if (target)` / `if (w)` guards). -/
def bumpScore (k : Sid) (d : Int) (ps : List (Sid × Player)) :
    List (Sid × Player) :=
  ps.map (fun e => (e.1,
    if e.1 = k then { e.2 with score := e.2.score + d } else e.2))

def majorityOf (totalPlayers : Nat) : Nat := totalPlayers / 2 + 1

/-- Majority-flag pass of `end_round`. -/
def applyFlags (maj : Nat) : List (Sid × List Sid) → List (Sid × Player) →
    List (Sid × Player)
  | [], ps => ps
  | e :: rest, ps =>
    applyFlags maj rest (if maj ≤ e.2.length then bumpScore e.1 (-2) ps else ps)

/-- `tally[targetSid] = (tally[targetSid] || 0) + 1`: increment in place or
create the key at the end. -/
def bumpTally (k : Sid) : List (Sid × Nat) → List (Sid × Nat)
  | [] => [(k, 1)]
  | e :: rest => if e.1 = k then (e.1, e.2 + 1) :: rest else e :: bumpTally k rest

def tallyFrom (acc : List (Sid × Nat)) : List (Sid × Sid) → List (Sid × Nat)
  | [] => acc
  | v :: rest => tallyFrom (bumpTally v.2 acc) rest

/-- The vote tally object built by `end_round`. -/
def roundTally (room : Room) : List (Sid × Nat) := tallyFrom [] room.votes

/-- `Math.max(0, ...values)`. -/
def maxNat (l : List Nat) : Nat := l.foldr max 0

def maxVotes (room : Room) : Nat := maxNat ((roundTally room).map Prod.snd)

/-- `Object.keys(tally).filter(sid => tally[sid] === maxVotes)`. -/
def roundWinners (room : Room) : List Sid :=
  ((roundTally room).filter (fun e => e.2 == maxVotes room)).map Prod.fst

/-- Winner pass of `end_round`: +2 per winner that is a current player. -/
def applyWinners : List Sid → List (Sid × Player) → List (Sid × Player)
  | [], ps => ps
  | w :: rest, ps => applyWinners rest (bumpScore w 2 ps)

/-- The whole scoring mutation of `end_round` on a room snapshot. -/
def scoreRoom (room : Room) : Room :=
  { room with players := applyWinners (roundWinners room)
                  (applyFlags (majorityOf room.players.length) room.rejections
                    (applyParticipation (submittedSids room) room.players)) }

def stepEndRound (s : ServerState) (sid : Sid) (code : String) :
    ServerState × List Broadcast :=
  match mget code s.rooms with
  | none => (s, [])
  | some room =>
    if room.hostId = some sid then
      let room' := scoreRoom room
      (⟨mset code room' s.rooms⟩,
       [Broadcast.round_results code room.prompt room.submissions
          (roundTally room) (roundWinners room) (serializeScores room')])
    else (s, [])

/-- The per-room effect of the disconnect handler. -/
def disconnectRoom (sid : Sid) (room : Room) : Room :=
  if (mget sid room.players).isSome then
    let players' := mdel sid room.players
    let hostId' := if room.hostId = some sid
      then players'.head?.map Prod.fst else room.hostId
    { room with players := players', hostId := hostId' }
  else room

def stepDisconnect (s : ServerState) (sid : Sid) :
    ServerState × List Broadcast :=
  (⟨s.rooms.map (fun e => (e.1, disconnectRoom sid e.2))⟩,
   s.rooms.filterMap (fun e =>
     if (mget sid e.2.players).isSome then
       some (Broadcast.room_update e.2.code (serializeRoom (disconnectRoom sid e.2)))
     else none))

/-- One inbound event processed by the socket handlers.  `leave_room` has no
registered listener in server.js, so it leaves the state untouched and emits
nothing. -/
def step (s : ServerState) : Event → ServerState × List Broadcast
  | .create_room sid code name => stepCreateRoom s sid code name
  | .join_room sid code name => stepJoinRoom s sid code name
  | .start_round sid code mode durationSec prompt now =>
      stepStartRound s sid code mode durationSec prompt now
  | .submit_photo sid code dataURL => stepSubmitPhoto s sid code dataURL
  | .vote_best sid code targetSid => stepVoteBest s sid code targetSid
  | .flag_lazy sid code targetSid => stepFlagLazy s sid code targetSid
  | .end_round sid code => stepEndRound s sid code
  | .leave_room _ _ => (s, [])
  | .disconnect sid => stepDisconnect s sid

/-- Run a sequence of events from the empty server state. -/
def run (evs : List Event) : ServerState :=
  evs.foldl (fun s e => (step s e).1) initState

/-! ### Association-list lemmas -/

theorem mget_mset_self {α β : Type} [DecidableEq α] (k : α) (v : β)
    (l : List (α × β)) : mget k (mset k v l) = some v := by
  induction l with
  | nil => simp [mget, mset]
  | cons e rest ih =>
    obtain ⟨a, b⟩ := e
    by_cases h : a = k
    · subst h
      simp [mget, mset]
    · simp [mget, mset, h, ih]

theorem mget_mset_ne {α β : Type} [DecidableEq α] {k k' : α} (v : β)
    (l : List (α × β)) (h : k' ≠ k) : mget k' (mset k v l) = mget k' l := by
  induction l with
  | nil => simp [mget, mset, Ne.symm h]
  | cons e rest ih =>
    obtain ⟨a, b⟩ := e
    by_cases ha : a = k
    · subst ha
      simp [mget, mset, Ne.symm h]
    · simp [mget, mset, ha, ih]

theorem mset_ne_nil {α β : Type} [DecidableEq α] (k : α) (v : β)
    (l : List (α × β)) : mset k v l ≠ [] := by
  cases l with
  | nil => simp [mset]
  | cons e rest =>
    by_cases h : e.1 = k <;> simp [mset, h]

theorem mget_mdel_self {α β : Type} [DecidableEq α] (k : α)
    (l : List (α × β)) : mget k (mdel k l) = none := by
  induction l with
  | nil => simp [mget, mdel]
  | cons e rest ih =>
    obtain ⟨a, b⟩ := e
    by_cases h : a = k
    · simp [mdel, h, ih]
    · simp [mget, mdel, h, ih]

theorem mget_mdel_ne {α β : Type} [DecidableEq α] {k k' : α}
    (l : List (α × β)) (h : k' ≠ k) : mget k' (mdel k l) = mget k' l := by
  induction l with
  | nil => simp [mdel]
  | cons e rest ih =>
    obtain ⟨a, b⟩ := e
    by_cases ha : a = k
    · subst ha
      simp [mget, mdel, Ne.symm h, ih]
    · simp [mget, mdel, ha, ih]

theorem mget_map_snd {α β γ : Type} [DecidableEq α] (k : α) (f : β → γ)
    (l : List (α × β)) :
    mget k (l.map (fun e => (e.1, f e.2))) = (mget k l).map f := by
  induction l with
  | nil => simp [mget]
  | cons e rest ih =>
    by_cases h : e.1 = k
    · simp [mget, h]
    · simp [mget, h, ih]

theorem mget_mem {α β : Type} [DecidableEq α] {k : α} {v : β}
    {l : List (α × β)} (h : mget k l = some v) : (k, v) ∈ l := by
  induction l with
  | nil => simp [mget] at h
  | cons e rest ih =>
    obtain ⟨a, b⟩ := e
    by_cases he : a = k
    · subst he
      simp [mget] at h
      subst h
      exact List.mem_cons_self _ _
    · simp [mget, he] at h
      exact List.mem_cons_of_mem _ (ih h)

theorem mget_eq_none_of_not_mem {α β : Type} [DecidableEq α] {k : α}
    {l : List (α × β)} (h : k ∉ l.map Prod.fst) : mget k l = none := by
  induction l with
  | nil => simp [mget]
  | cons e rest ih =>
    obtain ⟨a, b⟩ := e
    simp only [List.map_cons, List.mem_cons] at h
    push_neg at h
    simp [mget, Ne.symm h.1, ih h.2]

theorem mget_of_mem_nodup {α β : Type} [DecidableEq α] {k : α} {v : β}
    {l : List (α × β)} (hnd : (l.map Prod.fst).Nodup) (h : (k, v) ∈ l) :
    mget k l = some v := by
  induction l with
  | nil => simp at h
  | cons e rest ih =>
    simp only [List.map_cons, List.nodup_cons] at hnd
    rcases List.mem_cons.mp h with h1 | h2
    · subst h1
      simp [mget]
    · have hk : k ∈ rest.map Prod.fst :=
        List.mem_map.mpr ⟨(k, v), h2, rfl⟩
      have he : e.1 ≠ k := fun hek => hnd.1 (hek ▸ hk)
      simp [mget, he, ih hnd.2 h2]

theorem mget_isSome_iff_mem {α β : Type} [DecidableEq α] (k : α)
    (l : List (α × β)) : (mget k l).isSome = true ↔ k ∈ l.map Prod.fst := by
  induction l with
  | nil => simp [mget]
  | cons e rest ih =>
    obtain ⟨a, b⟩ := e
    by_cases he : a = k
    · subst he
      simp [mget]
    · simp [mget, he, ih, Ne.symm he]

theorem mget_isSome_ne_nil {α β : Type} [DecidableEq α] {k : α}
    {l : List (α × β)} (h : (mget k l).isSome = true) : l ≠ [] := by
  cases l with
  | nil => simp [mget] at h
  | cons e rest => simp

theorem mget_cons_self {α β : Type} [DecidableEq α] (e : α × β)
    (rest : List (α × β)) : mget e.1 (e :: rest) = some e.2 := by
  simp [mget]

theorem mset_idem {α β : Type} [DecidableEq α] (k : α) (v : β)
    (l : List (α × β)) : mset k v (mset k v l) = mset k v l := by
  induction l with
  | nil => simp [mset]
  | cons e rest ih =>
    by_cases h : e.1 = k
    · simp [mset, h]
    · simp [mset, h, ih]

theorem sadd_mem_self (x : Sid) (s : List Sid) : x ∈ sadd x s := by
  by_cases h : x ∈ s <;> simp [sadd, h]

theorem sadd_idem (x : Sid) (s : List Sid) : sadd x (sadd x s) = sadd x s :=
  if_pos (sadd_mem_self x s)

/-! ### Scoring lemmas -/

/-- An in-place score mutation seen through `mget`. -/
def addScore (d : Int) : Option Player → Option Player
  | none => none
  | some p => some { name := p.name, score := p.score + d }

theorem addScore_addScore (d d' : Int) (o : Option Player) :
    addScore d' (addScore d o) = addScore (d + d') o := by
  cases o with
  | none => rfl
  | some p => simp [addScore, Int.add_assoc]

theorem addScore_zero (o : Option Player) : addScore 0 o = o := by
  cases o with
  | none => rfl
  | some p =>
    obtain ⟨n, sc⟩ := p
    simp [addScore]

theorem mget_map_entry {β γ : Type} (g : Sid × β → γ) (ps : List (Sid × β))
    (k : Sid) :
    mget k (ps.map (fun e => (e.1, g e))) =
      (mget k ps).map (fun v => g (k, v)) := by
  induction ps with
  | nil => simp [mget]
  | cons e rest ih =>
    obtain ⟨a, b⟩ := e
    by_cases ha : a = k
    · subst ha
      simp [mget]
    · simp [mget, ha, ih]

theorem mget_applyParticipation (sub : List Sid) (ps : List (Sid × Player))
    (k : Sid) :
    mget k (applyParticipation sub ps) =
      addScore (if k ∈ sub then 1 else -2) (mget k ps) := by
  have h := mget_map_entry
    (fun e => if e.1 ∈ sub then { e.2 with score := e.2.score + 1 }
              else { e.2 with score := e.2.score - 2 }) ps k
  simp only [applyParticipation]
  rw [h]
  by_cases hs : k ∈ sub <;> cases mget k ps <;>
    simp [hs, addScore, sub_eq_add_neg]

theorem mget_bumpScore_self (k : Sid) (d : Int) (ps : List (Sid × Player)) :
    mget k (bumpScore k d ps) = addScore d (mget k ps) := by
  have h := mget_map_entry
    (fun e => if e.1 = k then { e.2 with score := e.2.score + d } else e.2) ps k
  simp only [bumpScore]
  rw [h]
  cases mget k ps <;> simp [addScore]

theorem mget_bumpScore_ne {k j : Sid} (d : Int) (ps : List (Sid × Player))
    (h : k ≠ j) : mget k (bumpScore j d ps) = mget k ps := by
  have hm := mget_map_entry
    (fun e => if e.1 = j then { e.2 with score := e.2.score + d } else e.2) ps k
  simp only [bumpScore]
  rw [hm]
  cases mget k ps <;> simp [h]

/-- The score contribution of the majority-flag pass for one key. -/
def flagContribOf (maj : Nat) (rej : List (Sid × List Sid)) (k : Sid) : Int :=
  match mget k rej with
  | some voters => if maj ≤ voters.length then -2 else 0
  | none => 0

theorem mget_applyFlags (maj : Nat) (rej : List (Sid × List Sid)) (k : Sid) :
    ∀ ps : List (Sid × Player), (rej.map Prod.fst).Nodup →
      mget k (applyFlags maj rej ps) =
        addScore (flagContribOf maj rej k) (mget k ps) := by
  induction rej with
  | nil =>
    intro ps _
    simp [applyFlags, flagContribOf, mget, addScore_zero]
  | cons e rest ih =>
    intro ps hnd
    obtain ⟨t, voters⟩ := e
    simp only [List.map_cons, List.nodup_cons] at hnd
    rw [show applyFlags maj ((t, voters) :: rest) ps =
        applyFlags maj rest
          (if maj ≤ voters.length then bumpScore t (-2) ps else ps) from rfl]
    rw [ih _ hnd.2]
    by_cases hk : k = t
    · subst hk
      have hrest : mget k rest = none := mget_eq_none_of_not_mem hnd.1
      have hc : flagContribOf maj rest k = 0 := by simp [flagContribOf, hrest]
      rw [hc, addScore_zero]
      by_cases hm : maj ≤ voters.length
      · simp [flagContribOf, mget, hm, mget_bumpScore_self]
      · simp [flagContribOf, mget, hm, addScore_zero]
    · have hc : flagContribOf maj ((t, voters) :: rest) k =
          flagContribOf maj rest k := by
        simp [flagContribOf, mget, Ne.symm hk]
      rw [hc]
      by_cases hm : maj ≤ voters.length
      · simp [hm, mget_bumpScore_ne _ _ hk]
      · simp [hm]

theorem mget_applyWinners (ws : List Sid) (k : Sid) :
    ∀ ps : List (Sid × Player), ws.Nodup →
      mget k (applyWinners ws ps) =
        addScore (if k ∈ ws then 2 else 0) (mget k ps) := by
  induction ws with
  | nil =>
    intro ps _
    simp [applyWinners, addScore_zero]
  | cons w rest ih =>
    intro ps hnd
    simp only [List.nodup_cons] at hnd
    rw [show applyWinners (w :: rest) ps = applyWinners rest (bumpScore w 2 ps)
        from rfl]
    rw [ih _ hnd.2]
    by_cases hk : k = w
    · subst hk
      simp [hnd.1, mget_bumpScore_self, addScore_zero]
    · simp [hk, List.mem_cons, mget_bumpScore_ne _ _ hk]

/-! ### Tally lemmas -/

/-- Specification-side count: how many cast votes point at `k`. -/
def countVotesFor (k : Sid) : List (Sid × Sid) → Nat
  | [] => 0
  | v :: rest => (if v.2 = k then 1 else 0) + countVotesFor k rest

theorem mget_bumpTally (k j : Sid) (t : List (Sid × Nat)) :
    mget k (bumpTally j t) =
      if k = j then some ((mget k t).getD 0 + 1) else mget k t := by
  induction t with
  | nil =>
    by_cases h : k = j
    · subst h
      simp [bumpTally, mget]
    · simp [bumpTally, mget, h, Ne.symm h]
  | cons e rest ih =>
    obtain ⟨a, n⟩ := e
    by_cases ha : a = j
    · subst ha
      by_cases hk : k = a
      · subst hk
        simp [bumpTally, mget]
      · simp [bumpTally, mget, hk, Ne.symm hk]
    · by_cases hk : k = a
      · subst hk
        simp [bumpTally, mget, ha, Ne.symm ha]
      · simp [bumpTally, mget, ha, Ne.symm hk, ih]

theorem mget_tallyFrom (k : Sid) (votes : List (Sid × Sid)) :
    ∀ acc : List (Sid × Nat),
      mget k (tallyFrom acc votes) =
        (match mget k acc with
         | some m => some (m + countVotesFor k votes)
         | none =>
             if countVotesFor k votes = 0 then none
             else some (countVotesFor k votes)) := by
  induction votes with
  | nil =>
    intro acc
    cases hacc : mget k acc <;> simp [tallyFrom, countVotesFor, hacc]
  | cons v rest ih =>
    intro acc
    rw [show tallyFrom acc (v :: rest) = tallyFrom (bumpTally v.2 acc) rest
        from rfl, ih, mget_bumpTally]
    by_cases hv : k = v.2
    · rw [if_pos hv]
      have hc : countVotesFor k (v :: rest) = 1 + countVotesFor k rest := by
        simp [countVotesFor, hv.symm]
      rw [hc]
      cases hacc : mget k acc with
      | none => simp [hacc]
      | some m =>
        simp [hacc]
        omega
    · rw [if_neg hv]
      have hc : countVotesFor k (v :: rest) = countVotesFor k rest := by
        simp [countVotesFor, Ne.symm hv]
      rw [hc]

theorem mget_roundTally (room : Room) (k : Sid) :
    mget k (roundTally room) =
      if countVotesFor k room.votes = 0 then none
      else some (countVotesFor k room.votes) := by
  have h := mget_tallyFrom k room.votes []
  simpa [roundTally, mget] using h

theorem bumpTally_keys (j : Sid) (t : List (Sid × Nat)) :
    (bumpTally j t).map Prod.fst =
      if j ∈ t.map Prod.fst then t.map Prod.fst
      else t.map Prod.fst ++ [j] := by
  induction t with
  | nil => simp [bumpTally]
  | cons e rest ih =>
    obtain ⟨a, n⟩ := e
    by_cases ha : a = j
    · subst ha
      simp [bumpTally]
    · by_cases hm : j ∈ rest.map Prod.fst <;>
        simp [bumpTally, ha, Ne.symm ha, ih, hm]

theorem bumpTally_keys_nodup (j : Sid) (t : List (Sid × Nat))
    (h : (t.map Prod.fst).Nodup) : ((bumpTally j t).map Prod.fst).Nodup := by
  rw [bumpTally_keys]
  by_cases hm : j ∈ t.map Prod.fst
  · simpa [hm] using h
  · simp only [hm, if_false]
    simp [List.nodup_append, h, hm]

theorem tallyFrom_keys_nodup (votes : List (Sid × Sid)) :
    ∀ acc : List (Sid × Nat), (acc.map Prod.fst).Nodup →
      ((tallyFrom acc votes).map Prod.fst).Nodup := by
  induction votes with
  | nil =>
    intro acc h
    simpa [tallyFrom] using h
  | cons v rest ih =>
    intro acc h
    exact ih _ (bumpTally_keys_nodup _ _ h)

theorem roundTally_keys_nodup (room : Room) :
    ((roundTally room).map Prod.fst).Nodup :=
  tallyFrom_keys_nodup _ [] (by simp)

theorem roundWinners_nodup (room : Room) : (roundWinners room).Nodup := by
  have hsub : List.Sublist
      (((roundTally room).filter (fun e => e.2 == maxVotes room)).map Prod.fst)
      ((roundTally room).map Prod.fst) :=
    (List.filter_sublist _).map _
  exact (roundTally_keys_nodup room).sublist hsub

theorem le_maxNat_of_mem {n : Nat} {l : List Nat} (h : n ∈ l) :
    n ≤ maxNat l := by
  induction l with
  | nil => simp at h
  | cons a rest ih =>
    rcases List.mem_cons.mp h with h1 | h2
    · subst h1
      exact Nat.le_max_left _ _
    · exact Nat.le_trans (ih h2) (Nat.le_max_right _ _)

/-! ### The per-player score decomposition of `end_round` -/

/-- Participation delta of one player. -/
def partDelta (room : Room) (k : Sid) : Int :=
  if k ∈ submittedSids room then 1 else -2

/-- Majority-flag delta of one player. -/
def flagDelta (room : Room) (k : Sid) : Int :=
  flagContribOf (majorityOf room.players.length) room.rejections k

/-- Best-vote delta of one player. -/
def voteDelta (room : Room) (k : Sid) : Int :=
  if k ∈ roundWinners room then 2 else 0

theorem mget_scoreRoom (room : Room)
    (hrej : (room.rejections.map Prod.fst).Nodup) (k : Sid) :
    mget k (scoreRoom room).players =
      addScore (partDelta room k + flagDelta room k + voteDelta room k)
        (mget k room.players) := by
  have h3 := mget_applyWinners (roundWinners room) k
    (applyFlags (majorityOf room.players.length) room.rejections
      (applyParticipation (submittedSids room) room.players))
    (roundWinners_nodup room)
  have h2 := mget_applyFlags (majorityOf room.players.length) room.rejections k
    (applyParticipation (submittedSids room) room.players) hrej
  have h1 := mget_applyParticipation (submittedSids room) room.players k
  have hall : mget k (scoreRoom room).players =
      addScore (if k ∈ roundWinners room then 2 else 0)
        (addScore (flagContribOf (majorityOf room.players.length)
            room.rejections k)
          (addScore (if k ∈ submittedSids room then 1 else -2)
            (mget k room.players))) := by
    rw [show (scoreRoom room).players =
        applyWinners (roundWinners room)
          (applyFlags (majorityOf room.players.length) room.rejections
            (applyParticipation (submittedSids room) room.players)) from rfl]
    rw [h3, h2, h1]
  rw [hall, addScore_addScore, addScore_addScore]
  have harith : (if k ∈ submittedSids room then (1 : Int) else -2) +
      (flagContribOf (majorityOf room.players.length) room.rejections k +
        if k ∈ roundWinners room then (2 : Int) else 0) =
      partDelta room k + flagDelta room k + voteDelta room k := by
    simp only [partDelta, flagDelta, voteDelta]
    omega
  rw [harith]

theorem mget_applyFlags_isSome (maj : Nat) :
    ∀ (rej : List (Sid × List Sid)) (ps : List (Sid × Player)) (k : Sid),
      (mget k (applyFlags maj rej ps)).isSome = (mget k ps).isSome := by
  intro rej
  induction rej with
  | nil => intro ps k; rfl
  | cons e rest ih =>
    intro ps k
    rw [show applyFlags maj (e :: rest) ps =
        applyFlags maj rest
          (if maj ≤ e.2.length then bumpScore e.1 (-2) ps else ps) from rfl, ih]
    by_cases hm : maj ≤ e.2.length
    · rw [if_pos hm]
      by_cases hk : k = e.1
      · rw [hk, mget_bumpScore_self]
        cases mget e.1 ps <;> rfl
      · rw [mget_bumpScore_ne _ _ hk]
    · rw [if_neg hm]

theorem mget_applyWinners_isSome :
    ∀ (ws : List Sid) (ps : List (Sid × Player)) (k : Sid),
      (mget k (applyWinners ws ps)).isSome = (mget k ps).isSome := by
  intro ws
  induction ws with
  | nil => intro ps k; rfl
  | cons w rest ih =>
    intro ps k
    rw [show applyWinners (w :: rest) ps = applyWinners rest (bumpScore w 2 ps)
        from rfl, ih]
    by_cases hk : k = w
    · rw [hk, mget_bumpScore_self]
      cases mget w ps <;> rfl
    · rw [mget_bumpScore_ne _ _ hk]

theorem mget_applyParticipation_isSome (sub : List Sid)
    (ps : List (Sid × Player)) (k : Sid) :
    (mget k (applyParticipation sub ps)).isSome = (mget k ps).isSome := by
  rw [mget_applyParticipation]
  cases mget k ps <;> rfl

theorem mget_scoreRoom_isSome (room : Room) (k : Sid) :
    (mget k (scoreRoom room).players).isSome = (mget k room.players).isSome := by
  show (mget k (applyWinners _ _)).isSome = _
  rw [mget_applyWinners_isSome, mget_applyFlags_isSome,
    mget_applyParticipation_isSome]

theorem scoreRoom_players_length (room : Room) :
    (scoreRoom room).players.length = room.players.length := by
  have hb : ∀ (k : Sid) (d : Int) (ps : List (Sid × Player)),
      (bumpScore k d ps).length = ps.length := by
    intro k d ps
    simp [bumpScore]
  have hf : ∀ (maj : Nat) (rej : List (Sid × List Sid))
      (ps : List (Sid × Player)), (applyFlags maj rej ps).length = ps.length := by
    intro maj rej
    induction rej with
    | nil => intro ps; rfl
    | cons e rest ih =>
      intro ps
      rw [show applyFlags maj (e :: rest) ps =
          applyFlags maj rest
            (if maj ≤ e.2.length then bumpScore e.1 (-2) ps else ps) from rfl,
        ih]
      by_cases hm : maj ≤ e.2.length <;> simp [hm, hb]
  have hw : ∀ (ws : List Sid) (ps : List (Sid × Player)),
      (applyWinners ws ps).length = ps.length := by
    intro ws
    induction ws with
    | nil => intro ps; rfl
    | cons w rest ih =>
      intro ps
      rw [show applyWinners (w :: rest) ps =
          applyWinners rest (bumpScore w 2 ps) from rfl, ih, hb]
  show (applyWinners _ _).length = _
  rw [hw, hf]
  simp [applyParticipation]

/-! ### Names and keys are untouched by scoring -/

/-- The key/name skeleton of a player map. -/
def nameKeys (ps : List (Sid × Player)) : List (Sid × String) :=
  ps.map (fun e => (e.1, e.2.name))

theorem nameKeys_map_of (f : Sid × Player → Sid × Player)
    (hf : ∀ e, (f e).1 = e.1 ∧ (f e).2.name = e.2.name)
    (ps : List (Sid × Player)) : nameKeys (ps.map f) = nameKeys ps := by
  induction ps with
  | nil => rfl
  | cons e rest ih =>
    simp only [nameKeys, List.map_cons, List.map_map] at ih ⊢
    simp only [List.cons.injEq]
    refine ⟨?_, ih⟩
    have h := hf e
    simp [Function.comp, h.1, h.2]

theorem nameKeys_applyParticipation (sub : List Sid)
    (ps : List (Sid × Player)) :
    nameKeys (applyParticipation sub ps) = nameKeys ps :=
  nameKeys_map_of _ (fun e => by by_cases h : e.1 ∈ sub <;> simp [h]) ps

theorem nameKeys_bumpScore (k : Sid) (d : Int) (ps : List (Sid × Player)) :
    nameKeys (bumpScore k d ps) = nameKeys ps :=
  nameKeys_map_of _ (fun e => by by_cases h : e.1 = k <;> simp [h]) ps

theorem nameKeys_applyFlags (maj : Nat) :
    ∀ (rej : List (Sid × List Sid)) (ps : List (Sid × Player)),
      nameKeys (applyFlags maj rej ps) = nameKeys ps := by
  intro rej
  induction rej with
  | nil => intro ps; rfl
  | cons e rest ih =>
    intro ps
    rw [show applyFlags maj (e :: rest) ps =
        applyFlags maj rest
          (if maj ≤ e.2.length then bumpScore e.1 (-2) ps else ps) from rfl, ih]
    by_cases hm : maj ≤ e.2.length <;> simp [hm, nameKeys_bumpScore]

theorem nameKeys_applyWinners :
    ∀ (ws : List Sid) (ps : List (Sid × Player)),
      nameKeys (applyWinners ws ps) = nameKeys ps := by
  intro ws
  induction ws with
  | nil => intro ps; rfl
  | cons w rest ih =>
    intro ps
    rw [show applyWinners (w :: rest) ps = applyWinners rest (bumpScore w 2 ps)
        from rfl, ih, nameKeys_bumpScore]

theorem nameKeys_scoreRoom (room : Room) :
    nameKeys (scoreRoom room).players = nameKeys room.players := by
  show nameKeys (applyWinners _ _) = _
  rw [nameKeys_applyWinners, nameKeys_applyFlags, nameKeys_applyParticipation]

/-! ### The host invariant -/

/-- A room with at least one player has exactly one host who is a current
player; an empty room has no host. -/
def hostOk (room : Room) : Prop :=
  (room.players ≠ [] →
    ∃ h, room.hostId = some h ∧ (mget h room.players).isSome = true)
  ∧ (room.players = [] → room.hostId = none)

def hostOkAll (s : ServerState) : Prop :=
  ∀ code room, mget code s.rooms = some room → hostOk room

theorem hostOk_of_fields {r r' : Room} (hp : r'.players = r.players)
    (hh : r'.hostId = r.hostId) (h : hostOk r) : hostOk r' := by
  constructor
  · intro hne
    rw [hp] at hne
    rcases h.1 hne with ⟨x, hx1, hx2⟩
    refine ⟨x, ?_, ?_⟩
    · rw [hh, hx1]
    · rw [hp]
      exact hx2
  · intro hnil
    rw [hp] at hnil
    rw [hh]
    exact h.2 hnil

theorem hostOkAll_mset {s : ServerState} {code : String} {r : Room}
    (hall : hostOkAll s) (hr : hostOk r) :
    hostOkAll ⟨mset code r s.rooms⟩ := by
  intro c room hm
  by_cases hc : c = code
  · subst hc
    rw [show (ServerState.mk (mset c r s.rooms)).rooms = mset c r s.rooms
        from rfl, mget_mset_self] at hm
    have : r = room := Option.some.inj hm
    subst this
    exact hr
  · rw [show (ServerState.mk (mset code r s.rooms)).rooms = mset code r s.rooms
        from rfl, mget_mset_ne _ _ hc] at hm
    exact hall c room hm

theorem hostOk_newRoom (code : String) : hostOk (newRoom code) := by
  constructor
  · intro h
    exact absurd rfl h
  · intro _
    rfl

theorem hostOk_base {s : ServerState} (hall : hostOkAll s) (code : String) :
    hostOk ((mget code s.rooms).getD (newRoom code)) := by
  cases hm : mget code s.rooms with
  | none => exact hostOk_newRoom code
  | some r => exact hall code r hm

theorem hostOk_step_create {s : ServerState} (hall : hostOkAll s) (sid : Sid)
    (code : String) (name : Option String) :
    hostOkAll (stepCreateRoom s sid code name).1 := by
  apply hostOkAll_mset hall
  constructor
  · intro _
    refine ⟨sid, rfl, ?_⟩
    rw [show ({ (mget code s.rooms).getD (newRoom code) with
        hostId := some sid,
        players := mset sid { name := defaultName name "Host", score := 0 }
          ((mget code s.rooms).getD (newRoom code)).players } : Room).players =
        mset sid { name := defaultName name "Host", score := 0 }
          ((mget code s.rooms).getD (newRoom code)).players from rfl]
    rw [mget_mset_self]
    rfl
  · intro hnil
    exact absurd hnil (mset_ne_nil _ _ _)

theorem hostOk_step_join {s : ServerState} (hall : hostOkAll s) (sid : Sid)
    (code : String) (name : Option String) :
    hostOkAll (stepJoinRoom s sid code name).1 := by
  have hbase := hostOk_base hall code
  apply hostOkAll_mset hall
  constructor
  · intro _
    cases hh : ((mget code s.rooms).getD (newRoom code)).hostId with
    | none =>
      refine ⟨sid, rfl, ?_⟩
      show (mget sid (mset sid { name := defaultName name "Guest", score := 0 }
          ((mget code s.rooms).getD (newRoom code)).players)).isSome = true
      rw [mget_mset_self]
      rfl
    | some h0 =>
      refine ⟨h0, rfl, ?_⟩
      show (mget h0 (mset sid { name := defaultName name "Guest", score := 0 }
          ((mget code s.rooms).getD (newRoom code)).players)).isSome = true
      have hne : ((mget code s.rooms).getD (newRoom code)).players ≠ [] := by
        intro hnil
        have h2 := hbase.2 hnil
        rw [hh] at h2
        cases h2
      rcases hbase.1 hne with ⟨h1, hh1, hs1⟩
      have heq : h1 = h0 := by
        rw [hh] at hh1
        exact (Option.some.inj hh1).symm
      subst heq
      by_cases hsid : h1 = sid
      · subst hsid
        rw [mget_mset_self]
        rfl
      · rw [mget_mset_ne _ _ hsid]
        exact hs1
  · intro hnil
    exact absurd hnil (mset_ne_nil _ _ _)

theorem hostOk_scoreRoom {room : Room} (h : hostOk room) :
    hostOk (scoreRoom room) := by
  constructor
  · intro hne
    have hne' : room.players ≠ [] := by
      intro hnil
      apply hne
      have hlen := scoreRoom_players_length room
      rw [hnil] at hlen
      exact List.length_eq_zero.mp (by simpa using hlen)
    rcases h.1 hne' with ⟨x, hx1, hx2⟩
    refine ⟨x, hx1, ?_⟩
    rw [mget_scoreRoom_isSome]
    exact hx2
  · intro hnil
    have hlen := scoreRoom_players_length room
    rw [hnil] at hlen
    have hnil' : room.players = [] :=
      List.length_eq_zero.mp (by simpa using hlen.symm)
    show room.hostId = none
    exact h.2 hnil'

theorem disconnectRoom_mem (sid : Sid) (room : Room)
    (hmem : (mget sid room.players).isSome = true) :
    disconnectRoom sid room =
      { room with
        hostId := if room.hostId = some sid
          then (mdel sid room.players).head?.map Prod.fst else room.hostId,
        players := mdel sid room.players } := by
  simp only [disconnectRoom]
  rw [if_pos hmem]

theorem disconnectRoom_not_mem (sid : Sid) (room : Room)
    (hmem : ¬(mget sid room.players).isSome = true) :
    disconnectRoom sid room = room := by
  simp only [disconnectRoom]
  rw [if_neg hmem]

theorem hostOk_disconnectRoom {room : Room} (h : hostOk room) (sid : Sid) :
    hostOk (disconnectRoom sid room) := by
  by_cases hmem : (mget sid room.players).isSome = true
  · rw [disconnectRoom_mem sid room hmem]
    by_cases hh : room.hostId = some sid
    · rw [if_pos hh]
      cases hdel : mdel sid room.players with
      | nil =>
        constructor
        · intro hne
          exact absurd rfl hne
        · intro _
          rfl
      | cons e rest =>
        constructor
        · intro _
          refine ⟨e.1, rfl, ?_⟩
          show (mget e.1 (e :: rest)).isSome = true
          rw [mget_cons_self]
          rfl
        · intro hnil
          exact absurd hnil (List.cons_ne_nil _ _)
    · rw [if_neg hh]
      have hne : room.players ≠ [] := mget_isSome_ne_nil hmem
      rcases h.1 hne with ⟨x, hx1, hx2⟩
      have hxsid : x ≠ sid := by
        intro hx
        subst hx
        exact hh hx1
      constructor
      · intro _
        refine ⟨x, hx1, ?_⟩
        show (mget x (mdel sid room.players)).isSome = true
        rw [mget_mdel_ne _ hxsid]
        exact hx2
      · intro hnil
        have hnil2 : mdel sid room.players = [] := hnil
        have hx2' : (mget x (mdel sid room.players)).isSome = true := by
          rw [mget_mdel_ne _ hxsid]
          exact hx2
        rw [hnil2] at hx2'
        simp [mget] at hx2'
  · rw [disconnectRoom_not_mem sid room hmem]
    exact h

theorem hostOk_step_disconnect {s : ServerState} (hall : hostOkAll s)
    (sid : Sid) : hostOkAll (stepDisconnect s sid).1 := by
  intro c room hm
  rw [show (stepDisconnect s sid).1.rooms =
      s.rooms.map (fun e => (e.1, disconnectRoom sid e.2)) from rfl,
    mget_map_snd] at hm
  cases hr : mget c s.rooms with
  | none =>
    rw [hr] at hm
    cases hm
  | some r0 =>
    rw [hr] at hm
    have heq : disconnectRoom sid r0 = room := Option.some.inj hm
    subst heq
    exact hostOk_disconnectRoom (hall c r0 hr) sid

theorem hostOk_step (s : ServerState) (e : Event) (hall : hostOkAll s) :
    hostOkAll (step s e).1 := by
  cases e with
  | create_room sid code name => exact hostOk_step_create hall sid code name
  | join_room sid code name => exact hostOk_step_join hall sid code name
  | start_round sid code mode durationSec prompt now =>
    show hostOkAll (stepStartRound s sid code mode durationSec prompt now).1
    cases hm : mget code s.rooms with
    | none =>
      simp only [stepStartRound, hm]
      exact hall
    | some room =>
      simp only [stepStartRound, hm]
      by_cases hh : room.hostId = some sid
      · rw [if_pos hh]
        exact hostOkAll_mset hall
          (hostOk_of_fields rfl rfl (hall code room hm))
      · rw [if_neg hh]
        exact hall
  | submit_photo sid code dataURL =>
    show hostOkAll (stepSubmitPhoto s sid code dataURL).1
    cases hm : mget code s.rooms with
    | none =>
      simp only [stepSubmitPhoto, hm]
      exact hall
    | some room =>
      simp only [stepSubmitPhoto, hm]
      exact hostOkAll_mset hall (hostOk_of_fields rfl rfl (hall code room hm))
  | vote_best sid code targetSid =>
    show hostOkAll (stepVoteBest s sid code targetSid).1
    cases hm : mget code s.rooms with
    | none =>
      simp only [stepVoteBest, hm]
      exact hall
    | some room =>
      simp only [stepVoteBest, hm]
      exact hostOkAll_mset hall (hostOk_of_fields rfl rfl (hall code room hm))
  | flag_lazy sid code targetSid =>
    show hostOkAll (stepFlagLazy s sid code targetSid).1
    cases hm : mget code s.rooms with
    | none =>
      simp only [stepFlagLazy, hm]
      exact hall
    | some room =>
      simp only [stepFlagLazy, hm]
      exact hostOkAll_mset hall (hostOk_of_fields rfl rfl (hall code room hm))
  | end_round sid code =>
    show hostOkAll (stepEndRound s sid code).1
    cases hm : mget code s.rooms with
    | none =>
      simp only [stepEndRound, hm]
      exact hall
    | some room =>
      simp only [stepEndRound, hm]
      by_cases hh : room.hostId = some sid
      · rw [if_pos hh]
        exact hostOkAll_mset hall (hostOk_scoreRoom (hall code room hm))
      · rw [if_neg hh]
        exact hall
  | leave_room sid code => exact hall
  | disconnect sid => exact hostOk_step_disconnect hall sid

theorem hostOkAll_initState : hostOkAll initState := by
  intro c room hm
  cases hm

theorem hostOkAll_run (evs : List Event) : hostOkAll (run evs) := by
  have hfold : ∀ (l : List Event) (s : ServerState), hostOkAll s →
      hostOkAll (l.foldl (fun s e => (step s e).1) s) := by
    intro l
    induction l with
    | nil =>
      intro s h
      exact h
    | cons e rest ih =>
      intro s h
      exact ih _ (hostOk_step s e h)
  exact hfold evs initState hostOkAll_initState

/-! ### Concrete example states used by witnesses and counterexamples -/

def evsC1 : List Event :=
  [Event.create_room 1 "R" none, Event.join_room 2 "R" (some "Bob"),
   Event.disconnect 1]

def roomC1 : Room :=
  { code := "R", hostId := some 2,
    players := [(2, { name := "Bob", score := 0 })],
    mode := none, round := 0, prompt := none, deadline := none,
    submissions := [], votes := [], rejections := [] }

def roomC5 : Room :=
  { code := "R", hostId := some 1,
    players := [(1, { name := "Host", score := 0 })],
    mode := none, round := 0, prompt := none, deadline := none,
    submissions := [], votes := [], rejections := [] }

def sC5 : ServerState := ⟨[("R", roomC5)]⟩

def roomC6 : Room :=
  { code := "Q", hostId := some 1,
    players := [(1, { name := "Host", score := 0 })],
    mode := none, round := 0, prompt := none, deadline := none,
    submissions := [], votes := [], rejections := [] }

def sC6 : ServerState := ⟨[("Q", roomC6)]⟩

def roomC7 : Room :=
  { code := "R", hostId := some 1,
    players := [(1, { name := "A", score := 3 }), (2, { name := "B", score := 5 })],
    mode := some "classic", round := 2, prompt := some "pr",
    deadline := some 99, submissions := [(1, "d1")],
    votes := [(2, 1)], rejections := [(2, [1])] }

def sC7 : ServerState := ⟨[("R", roomC7)]⟩

def roomC8 : Room :=
  { code := "R", hostId := some 1,
    players := [(1, { name := "P1", score := 0 }), (2, { name := "P2", score := 0 }),
                (3, { name := "P3", score := 0 })],
    mode := none, round := 0, prompt := none, deadline := none,
    submissions := [], votes := [], rejections := [] }

def sC8 : ServerState := ⟨[("R", roomC8)]⟩

def roomC9 : Room :=
  { code := "R", hostId := some 1,
    players := [(1, { name := "P1", score := 0 }), (2, { name := "P2", score := 0 })],
    mode := none, round := 0, prompt := none, deadline := none,
    submissions := [], votes := [], rejections := [] }

def sC9 : ServerState := ⟨[("R", roomC9)]⟩

/-! ### Claims -/

/-- Claim C1: after every sequence of events (in particular every sequence of
create_room, join_room, leave_room and disconnect events), every room in the
store that has at least one player has exactly one hostId and that hostId is a
key of players; a room with zero players has no hostId. -/
theorem claimC1_host_invariant (evs : List Event) (code : String) (room : Room)
    (hroom : mget code (run evs).rooms = some room) :
    (room.players ≠ [] →
      ∃ h, room.hostId = some h ∧ (mget h room.players).isSome = true)
    ∧ (room.players = [] → room.hostId = none) :=
  hostOkAll_run evs code room hroom

theorem claimC1_host_invariant_witness :
    ∃ h, roomC1.hostId = some h ∧ (mget h roomC1.players).isSome = true := by
  have hm : mget "R" (run evsC1).rooms = some roomC1 := by decide
  exact (claimC1_host_invariant evsC1 "R" roomC1 hm).1 (by decide)

/-- Claim C5 counterexample: in room "R" (host 1), a start_round by the host
with durationSec = −5 (non-positive) at now = 0 sets the deadline to
−5000 ms = now − 5 s, not now + 30 s: `durationSec || 30` only replaces the
falsy value 0, a negative number is used as given. -/
theorem claimC5_counterexample :
    (mget "R" ((step sC5
        (Event.start_round 1 "R" (some "classic") (some (-5)) "p" 0)).1.rooms)).map
      Room.deadline = some (some (-5000))
    ∧ ((-5000 : Int) ≠ 0 + 30 * 1000) :=
  ⟨by decide, by decide⟩

/-- Claim C5 (amended): for every start_round by the host of an existing room,
if durationSec is unspecified or zero the deadline is now + 30 s, otherwise
now + durationSec seconds (a negative durationSec is used as given, yielding a
deadline in the past); the same transition increments round by 1, stores the
mode and prompt, and clears submissions, votes and rejections. -/
theorem claimC5_start_round (s : ServerState) (sid : Sid) (code : String)
    (mode : Option String) (durationSec : Option Int) (prompt : String)
    (now : Int) (room : Room)
    (hroom : mget code s.rooms = some room) (hhost : room.hostId = some sid) :
    mget code ((step s
        (Event.start_round sid code mode durationSec prompt now)).1.rooms) =
      some { room with
             mode := mode, round := room.round + 1, prompt := some prompt,
             deadline := some (now + durationOr30 durationSec * 1000),
             submissions := [], votes := [], rejections := [] } := by
  show mget code ((stepStartRound s sid code mode durationSec prompt now).1.rooms) = _
  simp only [stepStartRound, hroom]
  rw [if_pos hhost]
  exact mget_mset_self _ _ _

theorem claimC5_start_round_witness :
    mget "R" ((step sC5
        (Event.start_round 1 "R" (some "m") (some 20) "pp" 5)).1.rooms) =
      some { roomC5 with
             mode := some "m", round := roomC5.round + 1, prompt := some "pp",
             deadline := some (5 + durationOr30 (some 20) * 1000),
             submissions := [], votes := [], rejections := [] } :=
  claimC5_start_round sC5 1 "R" (some "m") (some 20) "pp" 5 roomC5
    (by decide) (by decide)

/-- Claim C6: a start_round or end_round event whose room does not exist, or
whose caller is not that room's host, leaves the server state completely
unchanged and broadcasts nothing. -/
theorem claimC6_unauthorized_noop (s : ServerState) (sid : Sid) (code : String)
    (mode : Option String) (durationSec : Option Int) (prompt : String)
    (now : Int)
    (hguard : ∀ room, mget code s.rooms = some room → room.hostId ≠ some sid) :
    step s (Event.start_round sid code mode durationSec prompt now) = (s, [])
    ∧ step s (Event.end_round sid code) = (s, []) := by
  constructor
  · show stepStartRound s sid code mode durationSec prompt now = (s, [])
    cases hm : mget code s.rooms with
    | none => simp only [stepStartRound, hm]
    | some room =>
      simp only [stepStartRound, hm]
      rw [if_neg (hguard room hm)]
  · show stepEndRound s sid code = (s, [])
    cases hm : mget code s.rooms with
    | none => simp only [stepEndRound, hm]
    | some room =>
      simp only [stepEndRound, hm]
      rw [if_neg (hguard room hm)]

theorem claimC6_unauthorized_noop_witness :
    step sC6 (Event.start_round 2 "Q" none none "p" 0) = (sC6, [])
    ∧ step sC6 (Event.end_round 2 "Q") = (sC6, []) := by
  apply claimC6_unauthorized_noop
  intro room hroom
  have hr : mget "Q" sC6.rooms = some roomC6 := by decide
  rw [hr] at hroom
  have heq : roomC6 = room := Option.some.inj hroom
  subst heq
  decide

/-- Claim C7: a successful end_round stores the scored room back and modifies
only the score fields of current players: round, submissions, votes,
rejections, prompt, mode, deadline, hostId and the key/name skeleton of
players are unchanged, and every other room in the store is untouched. -/
theorem claimC7_end_round_frame (s : ServerState) (sid : Sid) (code : String)
    (room : Room) (hroom : mget code s.rooms = some room)
    (hhost : room.hostId = some sid) :
    mget code ((step s (Event.end_round sid code)).1.rooms) =
      some (scoreRoom room)
    ∧ (scoreRoom room).round = room.round
    ∧ (scoreRoom room).submissions = room.submissions
    ∧ (scoreRoom room).votes = room.votes
    ∧ (scoreRoom room).rejections = room.rejections
    ∧ (scoreRoom room).prompt = room.prompt
    ∧ (scoreRoom room).mode = room.mode
    ∧ (scoreRoom room).deadline = room.deadline
    ∧ (scoreRoom room).hostId = room.hostId
    ∧ (scoreRoom room).players.map (fun e => (e.1, e.2.name)) =
        room.players.map (fun e => (e.1, e.2.name))
    ∧ ∀ c, c ≠ code →
        mget c ((step s (Event.end_round sid code)).1.rooms) =
          mget c s.rooms := by
  refine ⟨?_, rfl, rfl, rfl, rfl, rfl, rfl, rfl, rfl, ?_, ?_⟩
  · show mget code ((stepEndRound s sid code).1.rooms) = _
    simp only [stepEndRound, hroom]
    rw [if_pos hhost]
    exact mget_mset_self _ _ _
  · exact nameKeys_scoreRoom room
  · intro c hc
    show mget c ((stepEndRound s sid code).1.rooms) = _
    simp only [stepEndRound, hroom]
    rw [if_pos hhost]
    exact mget_mset_ne _ _ hc

theorem claimC7_end_round_frame_witness :
    mget "R" ((step sC7 (Event.end_round 1 "R")).1.rooms) =
      some (scoreRoom roomC7)
    ∧ (scoreRoom roomC7).submissions = roomC7.submissions := by
  have h := claimC7_end_round_frame sC7 1 "R" roomC7 (by decide) (by decide)
  exact ⟨h.1, h.2.2.1⟩

/-- Claim C8: when the current host disconnects from a room in which they are
a player and at least one player remains, the new host is the first remaining
entry of the players list in its insertion order. -/
theorem claimC8_host_migration (s : ServerState) (code : String) (room : Room)
    (sid k : Sid) (p : Player) (rest : List (Sid × Player))
    (hroom : mget code s.rooms = some room)
    (hhost : room.hostId = some sid)
    (hmem : (mget sid room.players).isSome = true)
    (hdel : mdel sid room.players = (k, p) :: rest) :
    mget code ((step s (Event.disconnect sid)).1.rooms) =
      some { room with hostId := some k, players := (k, p) :: rest } := by
  show mget code ((stepDisconnect s sid).1.rooms) = _
  rw [show (stepDisconnect s sid).1.rooms =
      s.rooms.map (fun e => (e.1, disconnectRoom sid e.2)) from rfl,
    mget_map_snd, hroom]
  show some (disconnectRoom sid room) = _
  rw [disconnectRoom_mem sid room hmem, if_pos hhost, hdel]
  rfl

theorem claimC8_host_migration_witness :
    mget "R" ((step sC8 (Event.disconnect 1)).1.rooms) =
      some { roomC8 with
             hostId := some 2,
             players := [(2, { name := "P2", score := 0 }),
                         (3, { name := "P3", score := 0 })] } :=
  claimC8_host_migration sC8 "R" roomC8 1 2 { name := "P2", score := 0 }
    [(3, { name := "P3", score := 0 })] (by decide) (by decide) (by decide)
    (by decide)

/-- Claim C9 counterexample: player 2 of room "R" sends leave_room, yet stays
a player of the room and nothing is broadcast — server.js registers no
leave_room listener, so the event is dropped. -/
theorem claimC9_counterexample :
    ((mget "R" ((step sC9 (Event.leave_room 2 "R")).1.rooms)).map
      (fun r => (mget 2 r.players).isSome)) = some true
    ∧ (step sC9 (Event.leave_room 2 "R")).2 = [] :=
  ⟨by decide, by decide⟩

/-- Claim C9 (amended): a leave_room event has no registered handler and is a
complete no-op; it is disconnect that removes the caller from the players of
every room containing it, runs host migration when the caller was host, and
broadcasts the updated room view. -/
theorem claimC9_leave_noop_disconnect_removes :
    (∀ (s : ServerState) (sid : Sid) (code : String),
      step s (Event.leave_room sid code) = (s, []))
    ∧ (∀ (s : ServerState) (sid : Sid) (code : String) (room : Room),
        mget code s.rooms = some room →
        (mget sid room.players).isSome = true →
        mget code ((step s (Event.disconnect sid)).1.rooms) =
          some (disconnectRoom sid room)
        ∧ (disconnectRoom sid room).players = mdel sid room.players
        ∧ mget sid (disconnectRoom sid room).players = none
        ∧ (room.hostId = some sid →
            (disconnectRoom sid room).hostId =
              (mdel sid room.players).head?.map Prod.fst)
        ∧ Broadcast.room_update room.code
            (serializeRoom (disconnectRoom sid room))
            ∈ (step s (Event.disconnect sid)).2) := by
  constructor
  · intro s sid code
    rfl
  · intro s sid code room hroom hmem
    refine ⟨?_, ?_, ?_, ?_, ?_⟩
    · show mget code ((stepDisconnect s sid).1.rooms) = _
      rw [show (stepDisconnect s sid).1.rooms =
          s.rooms.map (fun e => (e.1, disconnectRoom sid e.2)) from rfl,
        mget_map_snd, hroom]
      rfl
    · rw [disconnectRoom_mem sid room hmem]
    · rw [disconnectRoom_mem sid room hmem]
      show mget sid (mdel sid room.players) = none
      exact mget_mdel_self _ _
    · intro hh
      rw [disconnectRoom_mem sid room hmem]
      show (if room.hostId = some sid
          then (mdel sid room.players).head?.map Prod.fst
          else room.hostId) = (mdel sid room.players).head?.map Prod.fst
      rw [if_pos hh]
    · show Broadcast.room_update room.code
          (serializeRoom (disconnectRoom sid room)) ∈ (stepDisconnect s sid).2
      rw [show (stepDisconnect s sid).2 =
          s.rooms.filterMap (fun e =>
            if (mget sid e.2.players).isSome then
              some (Broadcast.room_update e.2.code
                (serializeRoom (disconnectRoom sid e.2)))
            else none) from rfl]
      apply List.mem_filterMap.mpr
      refine ⟨(code, room), mget_mem hroom, ?_⟩
      simp [hmem]

theorem claimC9_witness :
    step sC9 (Event.leave_room 5 "Q") = (sC9, [])
    ∧ mget "R" ((step sC9 (Event.disconnect 2)).1.rooms) =
        some (disconnectRoom 2 roomC9) :=
  ⟨claimC9_leave_noop_disconnect_removes.1 sC9 5 "Q",
   (claimC9_leave_noop_disconnect_removes.2 sC9 2 "R" roomC9 (by decide)
     (by decide)).1⟩

/-! ### Scoring claims -/

def roomC2 : Room :=
  { code := "R", hostId := some 1,
    players := [(1, { name := "A", score := 0 }), (2, { name := "B", score := 0 }),
                (3, { name := "C", score := 0 }), (4, { name := "D", score := 0 })],
    mode := none, round := 1, prompt := some "pr", deadline := none,
    submissions := [], votes := [(1, 2), (3, 2), (4, 1)], rejections := [] }

def roomC2e : Room :=
  { code := "R", hostId := some 1,
    players := [(1, { name := "A", score := 0 })],
    mode := none, round := 1, prompt := some "pr", deadline := none,
    submissions := [], votes := [], rejections := [] }

/-- Claim C2: in the end_round tally, a target is a winner exactly when its
vote count equals the maximum tally value and that maximum is positive; with
zero cast votes the winner set is empty and the winner pass changes nothing. -/
theorem claimC2_winner_set :
    (∀ (room : Room) (target : Sid),
      target ∈ roundWinners room ↔
        (countVotesFor target room.votes = maxVotes room ∧ 0 < maxVotes room))
    ∧ (∀ room : Room, room.votes = [] →
        roundWinners room = []
        ∧ ∀ ps : List (Sid × Player), applyWinners (roundWinners room) ps = ps) := by
  constructor
  · intro room target
    constructor
    · intro hw
      rcases List.mem_map.mp hw with ⟨e, hef, he1⟩
      rcases List.mem_filter.mp hef with ⟨het, hev⟩
      have hev' : e.2 = maxVotes room := by simpa using hev
      have hpair : (target, e.2) = e := by
        obtain ⟨a, b⟩ := e
        simp only at he1
        rw [he1]
      have hm : mget target (roundTally room) = some e.2 :=
        mget_of_mem_nodup (roundTally_keys_nodup room) (hpair ▸ het)
      rw [mget_roundTally] at hm
      by_cases hz : countVotesFor target room.votes = 0
      · rw [if_pos hz] at hm
        cases hm
      · rw [if_neg hz] at hm
        have hce : countVotesFor target room.votes = e.2 := Option.some.inj hm
        refine ⟨by rw [hce, hev'], ?_⟩
        rw [← hev', ← hce]
        exact Nat.pos_of_ne_zero hz
    · intro hc
      have hm : mget target (roundTally room) = some (maxVotes room) := by
        rw [mget_roundTally, hc.1]
        rw [if_neg (Nat.pos_iff_ne_zero.mp hc.2)]
      have hmem := mget_mem hm
      apply List.mem_map.mpr
      refine ⟨(target, maxVotes room), ?_, rfl⟩
      apply List.mem_filter.mpr
      exact ⟨hmem, by simp⟩
  · intro room hv
    have h1 : roundWinners room = [] := by
      simp [roundWinners, roundTally, hv, tallyFrom]
    refine ⟨h1, ?_⟩
    intro ps
    rw [h1]
    rfl

theorem claimC2_winner_set_witness :
    (2 ∈ roundWinners roomC2 ↔
      (countVotesFor 2 roomC2.votes = maxVotes roomC2 ∧ 0 < maxVotes roomC2))
    ∧ roundWinners roomC2e = [] :=
  ⟨claimC2_winner_set.1 roomC2 2, (claimC2_winner_set.2 roomC2e rfl).1⟩

theorem flag_update_idem (target sid : Sid) (rej : List (Sid × List Sid)) :
    mset target (sadd sid ((mget target (mset target
        (sadd sid ((mget target rej).getD [])) rej)).getD []))
      (mset target (sadd sid ((mget target rej).getD [])) rej) =
    mset target (sadd sid ((mget target rej).getD [])) rej := by
  rw [mget_mset_self]
  show mset target (sadd sid (sadd sid ((mget target rej).getD [])))
      (mset target (sadd sid ((mget target rej).getD [])) rej) =
    mset target (sadd sid ((mget target rej).getD [])) rej
  rw [sadd_idem]
  exact mset_idem _ _ _

def roomC3 : Room :=
  { code := "R", hostId := some 1,
    players := [(1, { name := "P1", score := 0 }), (2, { name := "P2", score := 0 }),
                (3, { name := "P3", score := 0 }), (4, { name := "P4", score := 0 })],
    mode := none, round := 1, prompt := some "pr", deadline := none,
    submissions := [(1, "d1"), (2, "d2"), (3, "d3"), (4, "d4")],
    votes := [], rejections := [(3, [1, 2, 4]), (4, [1, 2])] }

def sC3 : ServerState := ⟨[("R", roomC3)]⟩

/-- Claim C3: at end_round, a current player whose distinct-flagger set has
size at least floor(totalPlayers / 2) + 1 — totalPlayers being the number of
current players — gets −2 from the flag pass, and a flagged player below that
threshold gets 0 from it, on top of the participation and vote deltas; and
flaggers are counted distinctly: a second flag_lazy by the same caller on the
same target leaves the server state unchanged. -/
theorem claimC3_majority_flag :
    (∀ (s : ServerState) (sid : Sid) (code : String) (room : Room)
        (target : Sid) (p : Player) (voters : List Sid),
      mget code s.rooms = some room → room.hostId = some sid →
      (room.rejections.map Prod.fst).Nodup →
      mget target room.players = some p →
      mget target room.rejections = some voters →
      ∃ room', mget code ((step s (Event.end_round sid code)).1.rooms) =
          some room'
        ∧ mget target room'.players =
            some { name := p.name,
                   score := p.score + partDelta room target +
                     (if room.players.length / 2 + 1 ≤ voters.length
                      then -2 else 0) + voteDelta room target })
    ∧ (∀ (s : ServerState) (sid : Sid) (code : String) (target : Sid),
        (step (step s (Event.flag_lazy sid code target)).1
          (Event.flag_lazy sid code target)).1 =
        (step s (Event.flag_lazy sid code target)).1) := by
  constructor
  · intro s sid code room target p voters hroom hhost hrej hp hflag
    refine ⟨scoreRoom room, ?_, ?_⟩
    · show mget code ((stepEndRound s sid code).1.rooms) = _
      simp only [stepEndRound, hroom]
      rw [if_pos hhost]
      exact mget_mset_self _ _ _
    · rw [mget_scoreRoom room hrej target, hp]
      have hfd : flagDelta room target =
          (if room.players.length / 2 + 1 ≤ voters.length
           then (-2 : Int) else 0) := by
        simp [flagDelta, flagContribOf, majorityOf, hflag]
      show (some { name := p.name,
                   score := p.score + (partDelta room target +
                     flagDelta room target + voteDelta room target) } :
          Option Player) = _
      rw [hfd]
      have harith : p.score + (partDelta room target +
          (if room.players.length / 2 + 1 ≤ voters.length
           then (-2 : Int) else 0) + voteDelta room target) =
          p.score + partDelta room target +
          (if room.players.length / 2 + 1 ≤ voters.length
           then (-2 : Int) else 0) + voteDelta room target := by
        omega
      rw [harith]
  · intro s sid code target
    show (step (stepFlagLazy s sid code target).1
      (Event.flag_lazy sid code target)).1 = (stepFlagLazy s sid code target).1
    cases hm : mget code s.rooms with
    | none =>
      have h1 : stepFlagLazy s sid code target = (s, []) := by
        simp only [stepFlagLazy, hm]
      rw [h1]
      show (stepFlagLazy s sid code target).1 = s
      rw [h1]
    | some room =>
      have h1 : (stepFlagLazy s sid code target).1 =
          ServerState.mk (mset code
            { room with
              rejections := mset target
                              (sadd sid ((mget target room.rejections).getD []))
                              room.rejections } s.rooms) := by
        simp only [stepFlagLazy, hm]
      rw [h1]
      have hm2 : mget code (ServerState.mk (mset code
          { room with
            rejections := mset target
                            (sadd sid ((mget target room.rejections).getD []))
                            room.rejections } s.rooms)).rooms =
          some { room with
                 rejections := mset target
                                 (sadd sid ((mget target room.rejections).getD []))
                                 room.rejections } := mget_mset_self _ _ _
      show (stepFlagLazy (ServerState.mk (mset code
          { room with
            rejections := mset target
                            (sadd sid ((mget target room.rejections).getD []))
                            room.rejections } s.rooms)) sid code target).1 = _
      simp only [stepFlagLazy, hm2]
      rw [flag_update_idem, mset_idem]

theorem claimC3_majority_flag_witness :
    (∃ room', mget "R" ((step sC3 (Event.end_round 1 "R")).1.rooms) = some room'
      ∧ mget 3 room'.players = some { name := "P3", score := -1 })
    ∧ (∃ room', mget "R" ((step sC3 (Event.end_round 1 "R")).1.rooms) = some room'
      ∧ mget 4 room'.players = some { name := "P4", score := 1 })
    ∧ (step (step sC3 (Event.flag_lazy 1 "R" 3)).1 (Event.flag_lazy 1 "R" 3)).1 =
        (step sC3 (Event.flag_lazy 1 "R" 3)).1 := by
  refine ⟨?_, ?_, claimC3_majority_flag.2 sC3 1 "R" 3⟩
  · obtain ⟨room', h1, h2⟩ := claimC3_majority_flag.1 sC3 1 "R" roomC3 3
      { name := "P3", score := 0 } [1, 2, 4] (by decide) (by decide) (by decide)
      (by decide) (by decide)
    refine ⟨room', h1, ?_⟩
    rw [h2]
    decide
  · obtain ⟨room', h1, h2⟩ := claimC3_majority_flag.1 sC3 1 "R" roomC3 4
      { name := "P4", score := 0 } [1, 2] (by decide) (by decide) (by decide)
      (by decide) (by decide)
    refine ⟨room', h1, ?_⟩
    rw [h2]
    decide

def roomC4 : Room :=
  { code := "AB12", hostId := some 1,
    players := [(1, { name := "P1", score := 0 }), (2, { name := "P2", score := 0 }),
                (3, { name := "P3", score := 0 })],
    mode := some "m", round := 1, prompt := some "pr", deadline := some 20000,
    submissions := [(1, "d1"), (2, "d2")], votes := [], rejections := [] }

def sC4 : ServerState := ⟨[("AB12", roomC4)]⟩

/-- Claim C4: at end_round, every current player whose connection id appears
among the submissions receives +1 and every current player whose id does not
receives −2, additively with the flag and vote deltas. -/
theorem claimC4_participation (s : ServerState) (sid : Sid) (code : String)
    (room : Room) (target : Sid) (p : Player)
    (hroom : mget code s.rooms = some room) (hhost : room.hostId = some sid)
    (hrej : (room.rejections.map Prod.fst).Nodup)
    (hp : mget target room.players = some p) :
    ∃ room', mget code ((step s (Event.end_round sid code)).1.rooms) =
        some room'
      ∧ mget target room'.players =
          some { name := p.name,
                 score := p.score +
                   (if target ∈ submittedSids room then 1 else -2) +
                   flagDelta room target + voteDelta room target } := by
  refine ⟨scoreRoom room, ?_, ?_⟩
  · show mget code ((stepEndRound s sid code).1.rooms) = _
    simp only [stepEndRound, hroom]
    rw [if_pos hhost]
    exact mget_mset_self _ _ _
  · rw [mget_scoreRoom room hrej target, hp]
    show (some { name := p.name,
                 score := p.score + (partDelta room target +
                   flagDelta room target + voteDelta room target) } :
        Option Player) = _
    have harith : p.score + (partDelta room target + flagDelta room target +
        voteDelta room target) =
        p.score + (if target ∈ submittedSids room then 1 else -2) +
        flagDelta room target + voteDelta room target := by
      simp only [partDelta]
      omega
    rw [harith]

theorem claimC4_participation_witness :
    (∃ room', mget "AB12" ((step sC4 (Event.end_round 1 "AB12")).1.rooms) =
        some room'
      ∧ mget 1 room'.players = some { name := "P1", score := 1 })
    ∧ (∃ room', mget "AB12" ((step sC4 (Event.end_round 1 "AB12")).1.rooms) =
        some room'
      ∧ mget 3 room'.players = some { name := "P3", score := -2 }) := by
  constructor
  · obtain ⟨room', h1, h2⟩ := claimC4_participation sC4 1 "AB12" roomC4 1
      { name := "P1", score := 0 } (by decide) (by decide) (by decide) (by decide)
    refine ⟨room', h1, ?_⟩
    rw [h2]
    decide
  · obtain ⟨room', h1, h2⟩ := claimC4_participation sC4 1 "AB12" roomC4 3
      { name := "P3", score := 0 } (by decide) (by decide) (by decide) (by decide)
    refine ⟨room', h1, ?_⟩
    rw [h2]
    decide

def roomC10 : Room :=
  { code := "R", hostId := some 1,
    players := [(1, { name := "A", score := 0 }), (2, { name := "B", score := 0 })],
    mode := none, round := 1, prompt := some "pr", deadline := none,
    submissions := [(1, "d1"), (2, "d2")],
    votes := [(1, 99), (2, 99)],
    rejections := [(99, [1, 2])] }

def sC10 : ServerState := ⟨[("R", roomC10)]⟩

/-- Claim C10: the −2 majority-flag bump and the +2 winner bump touch a score
only when the target id is a current player; an id that is not a key of
players can still carry the whole tally and the winner list (id 99 below,
flagged by a majority and winner of all votes), yet end_round succeeds and no
player score is affected by it. -/
theorem claimC10_nonplayer_targets :
    (∀ (ps : List (Sid × Player)) (k : Sid) (d : Int),
      mget k ps = none → bumpScore k d ps = ps)
    ∧ (∀ (room : Room) (k : Sid), mget k room.players = none →
        mget k (scoreRoom room).players = none)
    ∧ (99 ∈ roundWinners roomC10
       ∧ mget 99 (roundTally roomC10) = some 2
       ∧ mget 99 roomC10.players = none
       ∧ mget "R" ((step sC10 (Event.end_round 1 "R")).1.rooms) =
           some (scoreRoom roomC10)
       ∧ (scoreRoom roomC10).players =
           [(1, { name := "A", score := 1 }), (2, { name := "B", score := 1 })]) := by
  refine ⟨?_, ?_, ?_⟩
  · intro ps k d
    induction ps with
    | nil => intro _; rfl
    | cons e rest ih =>
      intro hnone
      obtain ⟨a, b⟩ := e
      by_cases ha : a = k
      · exfalso
        simp [mget, ha] at hnone
      · have h2 : mget k rest = none := by
          simpa [mget, ha] using hnone
        have ih2 := ih h2
        simp only [bumpScore, List.map_cons] at ih2 ⊢
        simp [ha, ih2]
  · intro room k hnone
    have h := mget_scoreRoom_isSome room k
    rw [hnone] at h
    cases hh : mget k (scoreRoom room).players with
    | none => rfl
    | some q =>
      rw [hh] at h
      cases h
  · refine ⟨by decide, by decide, by decide, ?_, by decide⟩
    show mget "R" ((stepEndRound sC10 1 "R").1.rooms) = some (scoreRoom roomC10)
    have hroom : mget "R" sC10.rooms = some roomC10 := by decide
    simp only [stepEndRound, hroom]
    rw [if_pos (by decide : roomC10.hostId = some 1)]
    exact mget_mset_self _ _ _

theorem claimC10_nonplayer_targets_witness :
    bumpScore 99 (-2) [(1, { name := "A", score := 0 })] =
      [(1, { name := "A", score := 0 })]
    ∧ mget 99 (scoreRoom roomC10).players = none :=
  ⟨claimC10_nonplayer_targets.1 [(1, { name := "A", score := 0 })] 99 (-2)
     (by decide),
   claimC10_nonplayer_targets.2.1 roomC10 99 (by decide)⟩

end SnapChaos
